import Mathlib

/-!
Verification of the graphics asset conversion pipeline
(`devtools/generate_graphics_structure.py`).

The pipeline's pure core is shallowly embedded here:

* the bitmap codec `convert_png_to_u8g2_format` (column-major, vertical
  byte groups, bit 0 = top row of the group);
* the frame set converter `process_and_convert_frames` (a fold over the
  exported frame list, mirroring the Python loop body);
* the expression metadata manager `generate_expression_description` /
  `update_description_dimensions` (descriptor files are modelled as their
  list of lines, resp. as an INI section/key/value structure, matching what
  the configparser round-trip preserves: section order, key order, values —
  comments are not representable in that round-trip);
* the frame canonicalization step of `export_aseprite_frames`
  (extracted frame indices sorted numerically by a stable sort and
  renamed to the canonical sequence 0, 1, 2, ...).

Filesystem effects are made explicit: a descriptor file is an
`Option` value (`none` = file absent), written artifacts are returned as a
list, and the per-expression step of `process_library` threads that state.
-/

namespace GraphicsGen

/-- A decoded raster image after PIL conversion to mode `1`:
`pixel x y` is the 1-bit sample at column `x`, row `y`
(`0` = black, `255` = white, as `Image.getpixel` returns). -/
structure Img where
  width : Nat
  height : Nat
  pixel : Nat → Nat → Nat

/-- The inner loop of `convert_png_to_u8g2_format` (source lines 379-389):
builds one byte for column `x`, vertical group `y_byte`; bit `bit` is set
iff row `y = y_byte*8 + bit` is inside the image and its pixel is non-zero. -/
def encodeByte (img : Img) (x y_byte : Nat) : Nat :=
  (List.range 8).foldl
    (fun byte_val bit =>
      let y := y_byte * 8 + bit
      if y < img.height then
        if img.pixel x y ≠ 0 then byte_val ||| (1 <<< bit) else byte_val
      else byte_val)
    0

/-- The bitmap produced by `convert_png_to_u8g2_format` (source lines
374-389): for each column `x` (left to right), for each vertical byte group
`y_byte` in `[0, (height+7)/8)`, one byte is appended. -/
def convert_png_to_u8g2_format (img : Img) : List Nat :=
  (List.range img.width).flatMap
    (fun x => (List.range ((img.height + 7) / 8)).map (fun y_byte => encodeByte img x y_byte))

/-- One source frame file as seen by the converter: either it decodes to a
raster, or opening/decoding it raises (the except branch, source lines
397-399). -/
inductive FrameSrc where
  | ok (img : Img)
  | err

/-- Whether decoding this source frame fails. -/
def FrameSrc.isErr : FrameSrc → Bool
  | .ok _ => false
  | .err => true

/-- The `(success, width, height)` triple `convert_png_to_u8g2_format`
returns to its caller (source lines 395 and 399). -/
def convert_result (f : FrameSrc) : Bool × Nat × Nat :=
  match f with
  | .ok img => (true, img.width, img.height)
  | .err => (false, 0, 0)

/-- Modelled from the spec: the decoder for the packed stream is not part of
this repository (it lives in the firmware); the spec states its bit
convention — bit `b` of the byte at position `x * ceil(H/8) + y_byte` gives
the on/off state of pixel `(x, y_byte*8 + b)`. -/
def decode_pixel (bytes : List Nat) (height x y : Nat) : Bool :=
  (bytes[x * ((height + 7) / 8) + y / 8]?.getD 0).testBit (y % 8)

/-- One written binary frame file: its pixel dimensions (those of the source
raster it was produced from) and its byte content. -/
structure Artifact where
  width : Nat
  height : Nat
  data : List Nat
  deriving DecidableEq

/-- The running state of the loop in `process_and_convert_frames` (source
lines 413-428): converted count, the dimensions remembered from the first
successfully converted frame, and the artifacts written so far. -/
structure ConvResult where
  converted_count : Nat
  frame_width : Nat
  frame_height : Nat
  artifacts : List Artifact
  deriving DecidableEq

/-- One iteration of the loop body of `process_and_convert_frames` (source
lines 417-428): a frame that fails to decode writes nothing and is not
counted; a frame that decodes has its bitmap written, the count incremented,
and — only when it is the first success — its dimensions recorded. -/
def pacf_step (st : ConvResult) (f : FrameSrc) : ConvResult :=
  match f with
  | .err => st
  | .ok img =>
    { converted_count := st.converted_count + 1
      frame_width := if st.converted_count + 1 = 1 then img.width else st.frame_width
      frame_height := if st.converted_count + 1 = 1 then img.height else st.frame_height
      artifacts := st.artifacts ++ [⟨img.width, img.height, convert_png_to_u8g2_format img⟩] }

/-- `process_and_convert_frames` (source lines 401-445): fold the loop body
over the exported frame list, starting from count 0 and dimensions (0, 0).
The PNG cleanup at the end touches only the transient directory and is not
part of the returned value. -/
def process_and_convert_frames (png_files : List FrameSrc) : ConvResult :=
  png_files.foldl pacf_step ⟨0, 0, 0, []⟩

/-- The artifact a single frame contributes (if any). -/
def mkArtifact : FrameSrc → Option Artifact
  | .ok img => some ⟨img.width, img.height, convert_png_to_u8g2_format img⟩
  | .err => none

/-- Number of frames in the list that decode successfully. -/
def countOk (fs : List FrameSrc) : Nat := (fs.filter (fun f => !f.isErr)).length

/-- An expression descriptor as the configparser round-trip sees it: an
ordered list of sections, each an ordered list of key/value pairs. -/
abbrev IniSec := List (String × String)

/-- Ordered list of named sections. -/
abbrev Ini := List (String × IniSec)

/-- `config[section][key] = value`: overwrite the key in place if present,
append it otherwise (configparser assignment semantics). -/
def setKey (sec : IniSec) (k v : String) : IniSec :=
  if sec.any (fun p => p.1 == k) then
    sec.map (fun p => if p.1 = k then (k, v) else p)
  else sec ++ [(k, v)]

/-- Whether the configuration has a section of this name. -/
def hasSection (cfg : Ini) (s : String) : Bool := cfg.any (fun sec => sec.1 == s)

/-- Assign a key inside a named section, leaving all other sections as they
are. -/
def setSectionKey (cfg : Ini) (s k v : String) : Ini :=
  cfg.map (fun sec => if sec.1 = s then (sec.1, setKey sec.2 k v) else sec)

/-- Read a key of a section (first match, as configparser lookup does). -/
def getKey (cfg : Ini) (s k : String) : Option String :=
  (cfg.find? (fun sec => sec.1 == s)).bind
    (fun sec => (sec.2.find? (fun p => p.1 == k)).map Prod.snd)

/-- `update_description_dimensions` (source lines 129-168): if the
descriptor file does not exist, print a warning and change nothing; else
ensure a `Dimensions` section exists, assign `Width` and `Height`, and — if
an FPS value was supplied and a `Loop` section exists — assign
`AnimationFPS`. The FPS value is carried already formatted (whole numbers
without a decimal point, otherwise one decimal digit, source line 161). -/
def update_description_dimensions (desc : Option Ini) (width height : Nat)
    (fps : Option String) : Option Ini :=
  match desc with
  | none => none
  | some cfg0 =>
    let cfg1 := if hasSection cfg0 "Dimensions" then cfg0 else cfg0 ++ [("Dimensions", [])]
    let cfg2 := setSectionKey cfg1 "Dimensions" "Width" (toString width)
    let cfg3 := setSectionKey cfg2 "Dimensions" "Height" (toString height)
    match fps with
    | none => some cfg3
    | some fpsStr =>
      some (if hasSection cfg3 "Loop" then setSectionKey cfg3 "Loop" "AnimationFPS" fpsStr
        else cfg3)

/-- The configuration that `update_description_dimensions` writes back when
the descriptor exists (helper to state its properties). -/
def updFinal (cfg0 : Ini) (width height : Nat) (fps : Option String) : Ini :=
  let cfg1 := if hasSection cfg0 "Dimensions" then cfg0 else cfg0 ++ [("Dimensions", [])]
  let cfg2 := setSectionKey cfg1 "Dimensions" "Width" (toString width)
  let cfg3 := setSectionKey cfg2 "Dimensions" "Height" (toString height)
  match fps with
  | none => cfg3
  | some fpsStr =>
    if hasSection cfg3 "Loop" then setSectionKey cfg3 "Loop" "AnimationFPS" fpsStr else cfg3

/-- The default descriptor content written by
`generate_expression_description` (source lines 96-123), as its list of
lines. -/
def default_description_lines (expression_name : String) : List String :=
  ["; Description for " ++ expression_name ++ " expression",
   "",
   "[Loop]",
   "; Supported Loop types:",
   ";",
   "; 1. IdleBlink(default) - Display first frame for random time in range",
   ";                           [IdleTimeMinMS, IdleTimeMaxMS] ms and after that",
   ";                           run animation with AnimationFPS fps.",
   ";                           After that switch frame to first and repeat.",
   ";",
   "; 2. Loop - Repeat animation from first frame to last with AnimationFPS fps.",
   ";           IdleTimeMinMS and IdleTimeMaxMS are unnecessary and will be ignored",
   ";           if presented",
   ";",
   "; 3. Image - Display only first frame. All fields except type are unnecessary ",
   ";             and will be ignored if presented",
   "",
   "; Type field must be first",
   "Type = IdleBlink",
   "AnimationFPS = 20",
   "IdleTimeMinMS = 1000",
   "IdleTimeMaxMS = 3000",
   "",
   "[Dimensions]",
   "; Frame dimensions in pixels (filled automatically during export)",
   "Width = 0",
   "Height = 0",
   ""]

/-- `generate_expression_description` (source lines 81-127): if the
descriptor file already exists the function returns without writing; else
the default content is written. The file is modelled by its list of lines
(`none` = absent). -/
def generate_expression_description (existing : Option (List String))
    (expression_name : String) : Option (List String) :=
  match existing with
  | some content => some content
  | none => some (default_description_lines expression_name)

/-- The per-aseprite-file tail of `process_library` (source lines 479-504):
the `Frames` directory is cleared (`shutil.rmtree`) before conversion, so the
previous run's artifacts are discarded; then the frame set is converted, and
the descriptor is updated with the discovered dimensions and FPS only when at
least one frame converted. Returns the artifacts now on disk and the
descriptor state. -/
def process_library_step (oldArtifacts : List Artifact) (desc : Option Ini)
    (png_files : List FrameSrc) (fps : Option String) : List Artifact × Option Ini :=
  let r := process_and_convert_frames png_files
  (r.artifacts,
    if r.converted_count > 0 then
      update_description_dimensions desc r.frame_width r.frame_height fps
    else desc)

/-- The numeric frame-ordering step of `export_aseprite_frames` (source
lines 310-328). A produced file `Frame_N.png` is represented by its
extracted index `N` (`extract_frame_number`). Python's stable
`list.sort(key=...)` is modelled by a stable comparison sort; the subsequent
rename of the `idx`-th sorted file to `Frame_{idx:02d}.png` is the pairing of
each sorted entry with its position. -/
def sort_frames (frame_numbers : List Nat) : List Nat :=
  List.insertionSort (· ≤ ·) frame_numbers

/-- Canonicalized frame sequence: `(canonical index, original index)` pairs
in output order. -/
def canonicalize_frames (frame_numbers : List Nat) : List (Nat × Nat) :=
  (sort_frames frame_numbers).enum

/-- Concrete 16×12 all-white raster (every pixel on). -/
def imgWide : Img := ⟨16, 12, fun _ _ => 255⟩

/-- Concrete 8×8 all-white raster of different dimensions. -/
def imgSmall : Img := ⟨8, 8, fun _ _ => 255⟩

/-- Concrete checkerboard raster used by the codec witnesses. -/
def imgCheck : Img := ⟨3, 12, fun x y => if (x + y) % 2 = 0 then 255 else 0⟩

/-- A concrete descriptor in the shape the default generation produces. -/
def descHappy : Ini :=
  [("Loop", [("Type", "IdleBlink"), ("AnimationFPS", "20"),
    ("IdleTimeMinMS", "1000"), ("IdleTimeMaxMS", "3000")]),
   ("Dimensions", [("Width", "0"), ("Height", "0")])]

/- ### Bit-level characterization of the codec -/

theorem foldl_orBit_testBit (c : Nat → Bool) (L : List Nat) (acc b : Nat) :
    (L.foldl (fun a i => if c i then a ||| (1 <<< i) else a) acc).testBit b
      = (acc.testBit b || (L.contains b && c b)) := by
  induction L generalizing acc with
  | nil => simp
  | cons i L ih =>
    rw [List.foldl_cons, ih, List.contains_cons]
    cases hc : c i with
    | false =>
      rw [if_neg (by simp [hc])]
      by_cases hbi : b = i
      · subst hbi; simp [hc]
      · have hbe : (b == i) = false := by simpa using hbi
        simp [hbe]
    | true =>
      rw [if_pos (by simp [hc])]
      by_cases hbi : b = i
      · subst hbi
        simp [hc, Nat.testBit_or, Nat.shiftLeft_eq, Nat.testBit_two_pow]
      · have hbe : (b == i) = false := by simpa using hbi
        simp [Nat.testBit_or, Nat.shiftLeft_eq, Nat.testBit_two_pow, Ne.symm hbi, hbe]

theorem encodeByte_testBit (img : Img) (x y_byte b : Nat) :
    (encodeByte img x y_byte).testBit b
      = (decide (b < 8) && (decide (y_byte * 8 + b < img.height)
          && decide (img.pixel x (y_byte * 8 + b) ≠ 0))) := by
  have hstep : (fun (byte_val bit : Nat) =>
      let y := y_byte * 8 + bit
      if y < img.height then
        if img.pixel x y ≠ 0 then byte_val ||| (1 <<< bit) else byte_val
      else byte_val)
      = (fun a i => if (decide (y_byte * 8 + i < img.height)
          && decide (img.pixel x (y_byte * 8 + i) ≠ 0)) then a ||| (1 <<< i) else a) := by
    funext a i
    by_cases h1 : y_byte * 8 + i < img.height <;>
      by_cases h2 : img.pixel x (y_byte * 8 + i) ≠ 0 <;> simp [h1, h2]
  rw [encodeByte, hstep, foldl_orBit_testBit]
  simp [List.mem_range]

theorem range_flatMap_map_length (f : Nat → Nat → Nat) (c : Nat) (n : Nat) :
    ((List.range n).flatMap (fun x => (List.range c).map (f x))).length = n * c := by
  induction n with
  | zero => simp
  | succ n ih =>
    rw [List.range_succ, List.flatMap_append]
    simp [ih, Nat.succ_mul]

theorem range_flatMap_map_getElem (f : Nat → Nat → Nat) (c : Nat) (n : Nat) :
    ∀ x j, x < n → j < c →
      ((List.range n).flatMap (fun x => (List.range c).map (f x)))[x * c + j]? = some (f x j) := by
  induction n with
  | zero => intro x j hx _; omega
  | succ n ih =>
    intro x j hx hj
    rw [List.range_succ, List.flatMap_append, List.getElem?_append]
    by_cases hxn : x < n
    · rw [if_pos]
      · exact ih x j hxn hj
      · rw [range_flatMap_map_length]
        calc x * c + j < x * c + c := Nat.add_lt_add_left hj _
        _ = (x + 1) * c := (Nat.succ_mul x c).symm
        _ ≤ n * c := Nat.mul_le_mul_right c hxn
    · have hxe : x = n := by omega
      subst hxe
      rw [if_neg]
      · rw [range_flatMap_map_length]
        have hsub : x * c + j - x * c = j := by omega
        rw [hsub]
        simp [List.getElem?_range hj]
      · rw [range_flatMap_map_length]
        omega

theorem convert_getElem (img : Img) (x y_byte : Nat)
    (hx : x < img.width) (hyb : y_byte < (img.height + 7) / 8) :
    (convert_png_to_u8g2_format img)[x * ((img.height + 7) / 8) + y_byte]?
      = some (encodeByte img x y_byte) :=
  range_flatMap_map_getElem (encodeByte img) _ img.width x y_byte hx hyb

theorem convert_length (img : Img) :
    (convert_png_to_u8g2_format img).length = img.width * ((img.height + 7) / 8) :=
  range_flatMap_map_length (encodeByte img) _ img.width

/-- C1: for every raster and every in-range column `x`, byte group `y_byte`
and bit `b`, the byte emitted at column-major position
`x * ceil(H/8) + y_byte` has bit `b` set iff row `y_byte*8 + b` is inside the
image and classified on (non-black sample); rows past the bottom of the last
partial byte are off and never wrap to row 0. -/
theorem c1_encoder_bit_layout (img : Img) (x y_byte b : Nat)
    (hx : x < img.width) (hyb : y_byte < (img.height + 7) / 8) (hb : b < 8) :
    ∃ byte, (convert_png_to_u8g2_format img)[x * ((img.height + 7) / 8) + y_byte]? = some byte ∧
      (byte.testBit b ↔ (y_byte * 8 + b < img.height ∧ img.pixel x (y_byte * 8 + b) ≠ 0)) := by
  refine ⟨encodeByte img x y_byte, convert_getElem img x y_byte hx hyb, ?_⟩
  rw [encodeByte_testBit]
  simp [hb]

/-- C1 witness: the layout theorem instantiated on the concrete 3×12
checkerboard raster at column 1, byte group 1, bit 3. -/
theorem c1_encoder_bit_layout_witness :
    (1 < imgCheck.width ∧ 1 < (imgCheck.height + 7) / 8 ∧ 3 < 8)
    ∧ ∃ byte,
      (convert_png_to_u8g2_format imgCheck)[1 * ((imgCheck.height + 7) / 8) + 1]? = some byte ∧
      (byte.testBit 3 ↔ (1 * 8 + 3 < imgCheck.height ∧ imgCheck.pixel 1 (1 * 8 + 3) ≠ 0)) :=
  ⟨⟨by decide, by decide, by decide⟩,
    c1_encoder_bit_layout imgCheck 1 1 3 (by decide) (by decide) (by decide)⟩

/-- C2: the encoder emits exactly `width * ceil(height/8)` bytes and returns
the measured width and height to the caller. -/
theorem c2_output_size_and_dims (img : Img) :
    (convert_png_to_u8g2_format img).length = img.width * ((img.height + 7) / 8)
      ∧ convert_result (.ok img) = (true, img.width, img.height) :=
  ⟨convert_length img, rfl⟩

/-- C3: decoding the packed stream with the known width/height and the same
bit convention recovers the original on/off classification of every pixel:
the packing is lossless and invertible. -/
theorem c3_roundtrip (img : Img) (x y : Nat) (hx : x < img.width) (hy : y < img.height) :
    decode_pixel (convert_png_to_u8g2_format img) img.height x y = true
      ↔ img.pixel x y ≠ 0 := by
  have hyb : y / 8 < (img.height + 7) / 8 := by omega
  rw [decode_pixel, convert_getElem img x (y / 8) hx hyb]
  have hsplit : y / 8 * 8 + y % 8 = y := by omega
  rw [Option.getD_some, encodeByte_testBit, hsplit]
  have h8 : y % 8 < 8 := by omega
  simp [h8, hy]

/-- C3 witness: round-trip evaluated on the concrete 3×12 checkerboard at
pixel (2, 11). -/
theorem c3_roundtrip_witness :
    (2 < imgCheck.width ∧ 11 < imgCheck.height)
    ∧ (decode_pixel (convert_png_to_u8g2_format imgCheck) imgCheck.height 2 11 = true
      ↔ imgCheck.pixel 2 11 ≠ 0) :=
  ⟨⟨by decide, by decide⟩, c3_roundtrip imgCheck 2 11 (by decide) (by decide)⟩

/- ### Frame set converter -/

theorem countOk_cons_err (t : List FrameSrc) : countOk (.err :: t) = countOk t := rfl

theorem countOk_cons_ok (img : Img) (t : List FrameSrc) :
    countOk (.ok img :: t) = countOk t + 1 := by
  simp [countOk, List.filter, FrameSrc.isErr]

theorem foldl_pacf_count (fs : List FrameSrc) : ∀ st : ConvResult,
    (fs.foldl pacf_step st).converted_count = st.converted_count + countOk fs := by
  induction fs with
  | nil => intro st; simp [countOk]
  | cons f t ih =>
    intro st
    rw [List.foldl_cons]
    cases f with
    | err => rw [ih, countOk_cons_err, pacf_step]
    | ok img =>
      rw [ih, countOk_cons_ok]
      simp [pacf_step]
      omega

theorem foldl_pacf_artifacts (fs : List FrameSrc) : ∀ st : ConvResult,
    (fs.foldl pacf_step st).artifacts = st.artifacts ++ fs.filterMap mkArtifact := by
  induction fs with
  | nil => intro st; simp
  | cons f t ih =>
    intro st
    rw [List.foldl_cons]
    cases f with
    | err => rw [ih, pacf_step]; simp [mkArtifact]
    | ok img => rw [ih]; simp [pacf_step, mkArtifact]

theorem length_filterMap_mkArtifact (fs : List FrameSrc) :
    (fs.filterMap mkArtifact).length = countOk fs := by
  induction fs with
  | nil => rfl
  | cons f t ih =>
    cases f with
    | err => rw [countOk_cons_err, ← ih]; rfl
    | ok img => rw [countOk_cons_ok, ← ih]; simp [mkArtifact]

theorem foldl_pacf_dims_frozen (fs : List FrameSrc) : ∀ st : ConvResult,
    1 ≤ st.converted_count →
      (fs.foldl pacf_step st).frame_width = st.frame_width
      ∧ (fs.foldl pacf_step st).frame_height = st.frame_height := by
  induction fs with
  | nil => intro st _; exact ⟨rfl, rfl⟩
  | cons f t ih =>
    intro st h
    rw [List.foldl_cons]
    cases f with
    | err => exact ih st h
    | ok img =>
      have hne : ¬ st.converted_count + 1 = 1 := by omega
      have h2 : 1 ≤ (pacf_step st (.ok img)).converted_count := by
        simp [pacf_step]
      obtain ⟨hw, hh⟩ := ih (pacf_step st (.ok img)) h2
      rw [hw, hh]
      constructor <;> simp [pacf_step, hne]

theorem foldl_pacf_first_dims (fs : List FrameSrc) : ∀ st : ConvResult,
    st.converted_count = 0 → 0 < countOk fs →
      ∃ img, FrameSrc.ok img ∈ fs
        ∧ (fs.foldl pacf_step st).frame_width = img.width
        ∧ (fs.foldl pacf_step st).frame_height = img.height := by
  induction fs with
  | nil => intro st _ hc; simp [countOk] at hc
  | cons f t ih =>
    intro st h0 hc
    rw [List.foldl_cons]
    cases f with
    | err =>
      rw [countOk_cons_err] at hc
      obtain ⟨img, hmem, hw, hh⟩ := ih st h0 hc
      exact ⟨img, List.mem_cons_of_mem _ hmem, hw, hh⟩
    | ok img =>
      have h1 : (pacf_step st (.ok img)).converted_count = 1 := by simp [pacf_step, h0]
      have hfw : (pacf_step st (.ok img)).frame_width = img.width := by
        simp [pacf_step, h0]
      have hfh : (pacf_step st (.ok img)).frame_height = img.height := by
        simp [pacf_step, h0]
      obtain ⟨hw, hh⟩ := foldl_pacf_dims_frozen t (pacf_step st (.ok img)) (by omega)
      exact ⟨img, List.mem_cons_self _ _, by rw [hw, hfw], by rw [hh, hfh]⟩

theorem foldl_pacf_all_err (fs : List FrameSrc) (st : ConvResult)
    (h : ∀ f ∈ fs, f.isErr = true) : fs.foldl pacf_step st = st := by
  induction fs with
  | nil => rfl
  | cons f t ih =>
    rw [List.foldl_cons]
    cases f with
    | err => exact ih (fun g hg => h g (List.mem_cons_of_mem _ hg))
    | ok img => exact absurd (h (.ok img) (List.mem_cons_self _ _)) (by simp [FrameSrc.isErr])

/-- C4 counterexample: a two-frame sequence of different dimensions (16×12
then 8×8) is converted without any failure — both frames are counted, both
artifacts are written (not zero), and the recorded dimensions silently stay
those of the first frame. There is no dimension check in
`process_and_convert_frames`. -/
theorem c4_counterexample :
    imgWide.width ≠ imgSmall.width
    ∧ (process_and_convert_frames [.ok imgWide, .ok imgSmall]).converted_count = 2
    ∧ (process_and_convert_frames [.ok imgWide, .ok imgSmall]).artifacts.length = 2
    ∧ (process_and_convert_frames [.ok imgWide, .ok imgSmall]).frame_width = imgWide.width
    ∧ (process_and_convert_frames [.ok imgWide, .ok imgSmall]).frame_height = imgWide.height := by
  decide

/-- C4 amended: for any frame sequence — mixed dimensions included — the
converter never fails with a `DimensionMismatch`: every frame that decodes is
converted and written as an artifact, and the recorded width/height are those
of the first successfully converted frame. -/
theorem c4_amended_no_dimension_check (l1 l2 : List FrameSrc) (img : Img)
    (h1 : ∀ f ∈ l1, f.isErr = true) :
    (process_and_convert_frames (l1 ++ .ok img :: l2)).converted_count = 1 + countOk l2
    ∧ (process_and_convert_frames (l1 ++ .ok img :: l2)).artifacts.length
        = (process_and_convert_frames (l1 ++ .ok img :: l2)).converted_count
    ∧ (process_and_convert_frames (l1 ++ .ok img :: l2)).frame_width = img.width
    ∧ (process_and_convert_frames (l1 ++ .ok img :: l2)).frame_height = img.height := by
  rw [process_and_convert_frames, List.foldl_append, foldl_pacf_all_err l1 _ h1,
    List.foldl_cons]
  have h1c : (pacf_step ⟨0, 0, 0, []⟩ (.ok img)).converted_count = 1 := rfl
  refine ⟨?_, ?_, ?_, ?_⟩
  · rw [foldl_pacf_count, h1c]
  · rw [foldl_pacf_artifacts, foldl_pacf_count, h1c, List.length_append,
      length_filterMap_mkArtifact]
    rfl
  · exact (foldl_pacf_dims_frozen l2 _ (by rw [h1c])).1
  · exact (foldl_pacf_dims_frozen l2 _ (by rw [h1c])).2

/-- C4 amended witness: one failing frame, then a 16×12 frame, then an 8×8
frame — the amended behavior evaluated concretely. -/
theorem c4_amended_witness :
    (∀ f ∈ [FrameSrc.err], f.isErr = true)
    ∧ ((process_and_convert_frames ([FrameSrc.err] ++ .ok imgWide :: [.ok imgSmall])).converted_count
        = 1 + countOk [.ok imgSmall]
      ∧ (process_and_convert_frames ([FrameSrc.err] ++ .ok imgWide :: [.ok imgSmall])).artifacts.length
        = (process_and_convert_frames ([FrameSrc.err] ++ .ok imgWide :: [.ok imgSmall])).converted_count
      ∧ (process_and_convert_frames ([FrameSrc.err] ++ .ok imgWide :: [.ok imgSmall])).frame_width
        = imgWide.width
      ∧ (process_and_convert_frames ([FrameSrc.err] ++ .ok imgWide :: [.ok imgSmall])).frame_height
        = imgWide.height) :=
  ⟨by decide, c4_amended_no_dimension_check [.err] [.ok imgSmall] imgWide (by decide)⟩

/-- C8 counterexample: a sequence whose first frame fails to decode still has
its second frame converted — the set is not aborted: the converted count is 1
and one artifact is written. -/
theorem c8_counterexample :
    (process_and_convert_frames [.err, .ok imgWide]).converted_count = 1
    ∧ (process_and_convert_frames [.err, .ok imgWide]).artifacts.length = 1 := by
  decide

/-- C8 amended: a per-frame decode/format failure does not abort the frame
set: the failing frame is skipped (logged, not counted, no artifact) and
conversion proceeds exactly as if that frame were absent; the run then
continues to the next expression. -/
theorem c8_amended_skip_failed_frame (l1 l2 : List FrameSrc) :
    process_and_convert_frames (l1 ++ FrameSrc.err :: l2)
      = process_and_convert_frames (l1 ++ l2) := by
  rw [process_and_convert_frames, process_and_convert_frames, List.foldl_append,
    List.foldl_append, List.foldl_cons]
  rfl

/-- C10: when the exported frame list is non-empty but every frame fails to
convert, the converter returns count 0 with the (0, 0) sentinel dimensions
and no artifacts, and the caller's `converted_count > 0` guard keeps the
descriptor untouched — the sentinel is never written into metadata. -/
theorem c10_all_failed_guard (fs : List FrameSrc) (old : List Artifact)
    (desc : Option Ini) (fps : Option String)
    (hne : fs ≠ []) (hall : ∀ f ∈ fs, f.isErr = true) :
    process_and_convert_frames fs = ⟨0, 0, 0, []⟩
    ∧ process_library_step old desc fs fps = ([], desc) := by
  have h1 : process_and_convert_frames fs = ⟨0, 0, 0, []⟩ :=
    foldl_pacf_all_err fs _ hall
  refine ⟨h1, ?_⟩
  rw [process_library_step, h1]
  simp

/-- C10 witness: a single failing frame with a populated descriptor — the
descriptor passes through unchanged. -/
theorem c10_all_failed_guard_witness :
    (([FrameSrc.err] : List FrameSrc) ≠ [] ∧ ∀ f ∈ [FrameSrc.err], f.isErr = true)
    ∧ (process_and_convert_frames [FrameSrc.err] = ⟨0, 0, 0, []⟩
      ∧ process_library_step [] (some descHappy) [FrameSrc.err] (some "20")
          = ([], some descHappy)) :=
  ⟨⟨by simp, by decide⟩,
    c10_all_failed_guard [FrameSrc.err] [] (some descHappy) (some "20") (by simp) (by decide)⟩

/- ### Descriptor (INI) lookup lemmas -/

theorem find?_map_overwrite (sec : IniSec) (k v : String)
    (h : sec.any (fun p => p.1 == k) = true) :
    ((sec.map (fun p => if p.1 = k then (k, v) else p)).find? (fun p => p.1 == k)).map Prod.snd
      = some v := by
  induction sec with
  | nil => simp at h
  | cons p t ih =>
    by_cases hp : p.1 = k
    · simp [List.find?_cons, hp]
    · have hp' : (p.1 == k) = false := by simpa using hp
      rw [List.any_cons, hp'] at h
      simp only [Bool.false_or] at h
      simp only [List.map_cons, if_neg hp, List.find?_cons, hp', cond_false]
      exact ih h

theorem find?_setKey_self (sec : IniSec) (k v : String) :
    ((setKey sec k v).find? (fun p => p.1 == k)).map Prod.snd = some v := by
  rw [setKey]
  by_cases h : sec.any (fun p => p.1 == k) = true
  · rw [if_pos h]
    exact find?_map_overwrite sec k v h
  · rw [if_neg h, List.find?_append]
    have hnone : sec.find? (fun p => p.1 == k) = none := by
      rw [List.find?_eq_none]
      intro p hp hpk
      exact h (List.any_eq_true.mpr ⟨p, hp, hpk⟩)
    rw [hnone]
    simp [List.find?_cons]

theorem find?_map_other (sec : IniSec) (k v k' : String) (hk : k' ≠ k) :
    (sec.map (fun p => if p.1 = k then (k, v) else p)).find? (fun p => p.1 == k')
      = sec.find? (fun p => p.1 == k') := by
  induction sec with
  | nil => rfl
  | cons p t ih =>
    by_cases hp : p.1 = k
    · have h1 : (k == k') = false := by simpa using Ne.symm hk
      have h2 : (p.1 == k') = false := by rw [hp]; simpa using Ne.symm hk
      simp [List.find?_cons, hp, h1, h2, ih]
    · by_cases hp' : p.1 = k'
      · simp [List.find?_cons, hp, hp', hk]
      · have h2 : (p.1 == k') = false := by simpa using hp'
        simp [List.find?_cons, hp, h2, ih]

theorem find?_setKey_other (sec : IniSec) (k v k' : String) (hk : k' ≠ k) :
    (setKey sec k v).find? (fun p => p.1 == k') = sec.find? (fun p => p.1 == k') := by
  rw [setKey]
  by_cases h : sec.any (fun p => p.1 == k) = true
  · rw [if_pos h]
    exact find?_map_other sec k v k' hk
  · rw [if_neg h, List.find?_append]
    cases hfind : sec.find? (fun p => p.1 == k') with
    | some p => rfl
    | none =>
      have h1 : (k == k') = false := by simpa using Ne.symm hk
      simp [List.find?_cons, h1]

theorem find?_section_map (cfg : Ini) (s k v : String) :
    (setSectionKey cfg s k v).find? (fun sec => sec.1 == s)
      = (cfg.find? (fun sec => sec.1 == s)).map (fun sec => (sec.1, setKey sec.2 k v)) := by
  rw [setSectionKey]
  induction cfg with
  | nil => rfl
  | cons p t ih =>
    by_cases hp : p.1 = s
    · simp [List.find?_cons, hp]
    · have h1 : (p.1 == s) = false := by simpa using hp
      simp [List.find?_cons, hp, h1, ih]

theorem find?_section_map_other (cfg : Ini) (s k v s' : String) (hs : s' ≠ s) :
    (setSectionKey cfg s k v).find? (fun sec => sec.1 == s')
      = cfg.find? (fun sec => sec.1 == s') := by
  rw [setSectionKey]
  induction cfg with
  | nil => rfl
  | cons p t ih =>
    by_cases hp : p.1 = s
    · have h2 : (s == s') = false := by simpa using fun e => hs e.symm
      simp [List.find?_cons, hp, h2, ih]
    · by_cases hp' : p.1 = s'
      · simp [List.find?_cons, hp, hp', hs]
      · have h1 : (p.1 == s') = false := by simpa using hp'
        simp [List.find?_cons, hp, h1, ih]

theorem getKey_setSectionKey_self_same (cfg : Ini) (s k v : String)
    (h : hasSection cfg s = true) :
    getKey (setSectionKey cfg s k v) s k = some v := by
  rw [getKey, find?_section_map]
  rw [hasSection] at h
  obtain ⟨sec, hmem, hsec⟩ := List.any_eq_true.mp h
  cases hf : cfg.find? (fun t => t.1 == s) with
  | none =>
    rw [List.find?_eq_none] at hf
    exact absurd hsec (hf sec hmem)
  | some t =>
    exact find?_setKey_self t.2 k v

theorem getKey_setSectionKey_self_other (cfg : Ini) (s k v k' : String) (hk : k' ≠ k) :
    getKey (setSectionKey cfg s k v) s k' = getKey cfg s k' := by
  rw [getKey, getKey, find?_section_map]
  cases hf : cfg.find? (fun t => t.1 == s) with
  | none => rfl
  | some t =>
    show ((setKey t.2 k v).find? (fun p => p.1 == k')).map Prod.snd
        = (t.2.find? (fun p => p.1 == k')).map Prod.snd
    rw [find?_setKey_other t.2 k v k' hk]

theorem getKey_setSectionKey_other (cfg : Ini) (s k v s' k' : String) (hs : s' ≠ s) :
    getKey (setSectionKey cfg s k v) s' k' = getKey cfg s' k' := by
  rw [getKey, getKey, find?_section_map_other cfg s k v s' hs]

theorem getKey_append_single_other (cfg : Ini) (s : String) (sec : IniSec) (s' k' : String)
    (hs : s' ≠ s) :
    getKey (cfg ++ [(s, sec)]) s' k' = getKey cfg s' k' := by
  rw [getKey, getKey, List.find?_append]
  cases hf : cfg.find? (fun t => t.1 == s') with
  | some t => rfl
  | none =>
    have h1 : (s == s') = false := by simpa using Ne.symm hs
    simp [List.find?_cons, h1]

theorem getKey_none_of_not_hasSection (cfg : Ini) (s k : String)
    (h : hasSection cfg s = false) : getKey cfg s k = none := by
  rw [getKey]
  have hnone : cfg.find? (fun sec => sec.1 == s) = none := by
    rw [List.find?_eq_none]
    intro sec hmem hsec
    have hall : cfg.any (fun sec => sec.1 == s) = true :=
      List.any_eq_true.mpr ⟨sec, hmem, hsec⟩
    rw [hasSection] at h
    rw [h] at hall
    exact absurd hall (by decide)
  rw [hnone]
  rfl

theorem getKey_append_empty_self (cfg : Ini) (s k' : String)
    (h : hasSection cfg s = false) :
    getKey (cfg ++ [(s, [])]) s k' = none := by
  rw [getKey, List.find?_append]
  have hnone : cfg.find? (fun sec => sec.1 == s) = none := by
    rw [List.find?_eq_none]
    intro sec hmem hsec
    have hall : cfg.any (fun sec => sec.1 == s) = true :=
      List.any_eq_true.mpr ⟨sec, hmem, hsec⟩
    rw [hasSection] at h
    rw [h] at hall
    exact absurd hall (by decide)
  rw [hnone]
  simp [List.find?_cons]

theorem hasSection_setSectionKey (cfg : Ini) (s k v s2 : String) :
    hasSection (setSectionKey cfg s k v) s2 = hasSection cfg s2 := by
  rw [hasSection, hasSection, setSectionKey, List.any_map]
  congr 1
  funext sec
  by_cases hp : sec.1 = s <;> simp [hp]

theorem hasSection_append_single (cfg : Ini) (s : String) (sec : IniSec) (s2 : String) :
    hasSection (cfg ++ [(s, sec)]) s2 = (hasSection cfg s2 || (s == s2)) := by
  rw [hasSection, hasSection, List.any_append]
  simp

theorem getKey_ensure_dims (cfg : Ini) (s' k' : String) :
    getKey (if hasSection cfg "Dimensions" then cfg else cfg ++ [("Dimensions", [])]) s' k'
      = getKey cfg s' k' := by
  by_cases hD : hasSection cfg "Dimensions" = true
  · rw [if_pos hD]
  · rw [if_neg hD]
    by_cases hs : s' = "Dimensions"
    · subst hs
      rw [getKey_append_empty_self cfg _ k' (by simpa using hD),
        getKey_none_of_not_hasSection cfg _ k' (by simpa using hD)]
    · exact getKey_append_single_other cfg _ _ s' k' hs

theorem hasSection_ensure_dims (cfg : Ini) :
    hasSection (if hasSection cfg "Dimensions" then cfg else cfg ++ [("Dimensions", [])])
      "Dimensions" = true := by
  by_cases hD : hasSection cfg "Dimensions" = true
  · rw [if_pos hD]; exact hD
  · rw [if_neg hD, hasSection_append_single]
    simp

theorem getKey_loop_step (c : Ini) (fval s' k' : String)
    (hf : ¬ (s' = "Loop" ∧ k' = "AnimationFPS")) :
    getKey (if hasSection c "Loop" then setSectionKey c "Loop" "AnimationFPS" fval else c) s' k'
      = getKey c s' k' := by
  by_cases hL : hasSection c "Loop" = true
  · rw [if_pos hL]
    by_cases hs : s' = "Loop"
    · subst hs
      have hk : k' ≠ "AnimationFPS" := fun hk => hf ⟨rfl, hk⟩
      exact getKey_setSectionKey_self_other c _ _ _ k' hk
    · exact getKey_setSectionKey_other c _ _ _ _ _ hs
  · rw [if_neg hL]

theorem update_some_eq (cfg : Ini) (w h : Nat) (fps : Option String) :
    update_description_dimensions (some cfg) w h fps = some (updFinal cfg w h fps) := by
  cases fps <;> rfl

theorem getKey_updFinal_other (cfg : Ini) (w h : Nat) (fps : Option String) (s' k' : String)
    (hother : ¬ (s' = "Dimensions" ∧ (k' = "Width" ∨ k' = "Height")))
    (hfps : ¬ (fps.isSome = true ∧ s' = "Loop" ∧ k' = "AnimationFPS")) :
    getKey (updFinal cfg w h fps) s' k' = getKey cfg s' k' := by
  have hbase : getKey (setSectionKey (setSectionKey
      (if hasSection cfg "Dimensions" then cfg else cfg ++ [("Dimensions", [])])
      "Dimensions" "Width" (toString w)) "Dimensions" "Height" (toString h)) s' k'
      = getKey cfg s' k' := by
    push_neg at hother
    by_cases hs : s' = "Dimensions"
    · subst hs
      obtain ⟨hW, hH⟩ := hother rfl
      rw [getKey_setSectionKey_self_other _ _ _ _ _ hH,
        getKey_setSectionKey_self_other _ _ _ _ _ hW, getKey_ensure_dims]
    · rw [getKey_setSectionKey_other _ _ _ _ _ _ hs,
        getKey_setSectionKey_other _ _ _ _ _ _ hs, getKey_ensure_dims]
  cases fps with
  | none => simpa [updFinal] using hbase
  | some fval =>
    have hf : ¬ (s' = "Loop" ∧ k' = "AnimationFPS") := by
      intro hc
      exact hfps ⟨rfl, hc.1, hc.2⟩
    simp only [updFinal]
    rw [getKey_loop_step _ fval s' k' hf]
    exact hbase

theorem getKey_updFinal_width (cfg : Ini) (w h : Nat) (fps : Option String) :
    getKey (updFinal cfg w h fps) "Dimensions" "Width" = some (toString w) := by
  have hbase : getKey (setSectionKey (setSectionKey
      (if hasSection cfg "Dimensions" then cfg else cfg ++ [("Dimensions", [])])
      "Dimensions" "Width" (toString w)) "Dimensions" "Height" (toString h))
      "Dimensions" "Width" = some (toString w) := by
    rw [getKey_setSectionKey_self_other _ _ _ _ _
      (by decide : ("Width" : String) ≠ "Height")]
    exact getKey_setSectionKey_self_same _ _ _ _ (hasSection_ensure_dims cfg)
  cases fps with
  | none => simpa [updFinal] using hbase
  | some fval =>
    simp only [updFinal]
    rw [getKey_loop_step _ fval _ _ (by decide)]
    exact hbase

theorem getKey_updFinal_height (cfg : Ini) (w h : Nat) (fps : Option String) :
    getKey (updFinal cfg w h fps) "Dimensions" "Height" = some (toString h) := by
  have hbase : getKey (setSectionKey (setSectionKey
      (if hasSection cfg "Dimensions" then cfg else cfg ++ [("Dimensions", [])])
      "Dimensions" "Width" (toString w)) "Dimensions" "Height" (toString h))
      "Dimensions" "Height" = some (toString h) := by
    apply getKey_setSectionKey_self_same
    rw [hasSection_setSectionKey]
    exact hasSection_ensure_dims cfg
  cases fps with
  | none => simpa [updFinal] using hbase
  | some fval =>
    simp only [updFinal]
    rw [getKey_loop_step _ fval _ _ (by decide)]
    exact hbase

/-- C9: `update_description_dimensions` modifies only `Dimensions.Width` and
`Dimensions.Height` (and `Loop.AnimationFPS` when an FPS value is supplied):
every other section/key of an existing descriptor keeps its value, and when
no descriptor file exists the call changes nothing (a logged warning, not a
fatal error). -/
theorem c9_update_only_dimensions (cfg : Ini) (width height : Nat) (fps : Option String)
    (s' k' : String)
    (hother : ¬ (s' = "Dimensions" ∧ (k' = "Width" ∨ k' = "Height")))
    (hfps : ¬ (fps.isSome = true ∧ s' = "Loop" ∧ k' = "AnimationFPS")) :
    update_description_dimensions none width height fps = none
    ∧ (update_description_dimensions (some cfg) width height fps).bind
        (fun c => getKey c s' k') = getKey cfg s' k'
    ∧ (update_description_dimensions (some cfg) width height fps).bind
        (fun c => getKey c "Dimensions" "Width") = some (toString width)
    ∧ (update_description_dimensions (some cfg) width height fps).bind
        (fun c => getKey c "Dimensions" "Height") = some (toString height) := by
  refine ⟨rfl, ?_, ?_, ?_⟩
  · rw [update_some_eq]
    exact getKey_updFinal_other cfg width height fps s' k' hother hfps
  · rw [update_some_eq]
    exact getKey_updFinal_width cfg width height fps
  · rw [update_some_eq]
    exact getKey_updFinal_height cfg width height fps

/-- C9 witness: updating a concrete descriptor to 16×12 at FPS "25" leaves
`Loop.Type` untouched and lands the new `Width`/`Height` values. -/
theorem c9_update_only_dimensions_witness :
    (¬ (("Loop" : String) = "Dimensions" ∧ (("Type" : String) = "Width" ∨ ("Type" : String) = "Height"))
      ∧ ¬ ((some "25" : Option String).isSome = true ∧ ("Loop" : String) = "Loop"
        ∧ ("Type" : String) = "AnimationFPS"))
    ∧ (update_description_dimensions none 16 12 (some "25") = none
      ∧ (update_description_dimensions (some descHappy) 16 12 (some "25")).bind
          (fun c => getKey c "Loop" "Type") = getKey descHappy "Loop" "Type"
      ∧ (update_description_dimensions (some descHappy) 16 12 (some "25")).bind
          (fun c => getKey c "Dimensions" "Width") = some (toString 16)
      ∧ (update_description_dimensions (some descHappy) 16 12 (some "25")).bind
          (fun c => getKey c "Dimensions" "Height") = some (toString 12)) :=
  ⟨⟨by decide, by decide⟩,
    c9_update_only_dimensions descHappy 16 12 (some "25") "Loop" "Type"
      (by decide) (by decide)⟩

/- ### Expression-level dimension invariant -/

/-- C5 counterexample: a run over a mixed-dimension frame pair (16×12 then
8×8) completes without failure and rewrites the descriptor to Width=16,
Height=12, while a sibling 8×8 artifact exists on disk — the recorded
dimensions do not match every sibling artifact even though the run
succeeded. -/
theorem c5_counterexample :
    (process_library_step [] (some descHappy) [.ok imgWide, .ok imgSmall] (some "20")).2.bind
        (fun c => getKey c "Dimensions" "Width") = some "16"
    ∧ (process_library_step [] (some descHappy) [.ok imgWide, .ok imgSmall] (some "20")).2.bind
        (fun c => getKey c "Dimensions" "Height") = some "12"
    ∧ (process_library_step [] (some descHappy) [.ok imgWide, .ok imgSmall] (some "20")).1.map
        (fun a => (a.width, a.height)) = [(16, 12), (8, 8)]
    ∧ ((8, 8) : Nat × Nat) ≠ (16, 12) := by
  decide

/-- C5 amended: when all successfully decoded frames of the set share one
dimension pair (the supported case), the descriptor written after conversion
matches every sibling artifact; the output directory holds exactly this
run's artifacts (the previous run's artifacts are cleared in full first),
and metadata is rewritten only after the frame set is converted. -/
theorem c5_amended_uniform_dims (old : List Artifact) (cfg : Ini) (fs : List FrameSrc)
    (fps : Option String) (w h : Nat)
    (hdims : ∀ img, FrameSrc.ok img ∈ fs → img.width = w ∧ img.height = h)
    (hsome : 0 < countOk fs) :
    (∀ a ∈ (process_library_step old (some cfg) fs fps).1, a.width = w ∧ a.height = h)
    ∧ (process_library_step old (some cfg) fs fps).1 = (process_and_convert_frames fs).artifacts
    ∧ (process_library_step old (some cfg) fs fps).2.bind
        (fun c => getKey c "Dimensions" "Width") = some (toString w)
    ∧ (process_library_step old (some cfg) fs fps).2.bind
        (fun c => getKey c "Dimensions" "Height") = some (toString h) := by
  have hart : (process_and_convert_frames fs).artifacts = fs.filterMap mkArtifact := by
    rw [process_and_convert_frames, foldl_pacf_artifacts]
    rfl
  have hcc : (process_and_convert_frames fs).converted_count = countOk fs := by
    rw [process_and_convert_frames, foldl_pacf_count]
    simp
  have hpos : (process_and_convert_frames fs).converted_count > 0 := by
    rw [hcc]; exact hsome
  obtain ⟨img, hmem, hfw, hfh⟩ :=
    foldl_pacf_first_dims fs ⟨0, 0, 0, []⟩ rfl hsome
  obtain ⟨himgw, himgh⟩ := hdims img hmem
  have hfw' : (process_and_convert_frames fs).frame_width = w := by
    rw [process_and_convert_frames, hfw, himgw]
  have hfh' : (process_and_convert_frames fs).frame_height = h := by
    rw [process_and_convert_frames, hfh, himgh]
  have hfst : (process_library_step old (some cfg) fs fps).1
      = (process_and_convert_frames fs).artifacts := rfl
  have hsnd : (process_library_step old (some cfg) fs fps).2
      = update_description_dimensions (some cfg) w h fps := by
    rw [process_library_step]
    simp only [hpos, if_pos, hfw', hfh']
  refine ⟨?_, hfst, ?_, ?_⟩
  · intro a ha
    rw [hfst, hart, List.mem_filterMap] at ha
    obtain ⟨f, hf, hfa⟩ := ha
    cases f with
    | err => simp [mkArtifact] at hfa
    | ok i =>
      rw [mkArtifact] at hfa
      obtain ⟨hiw, hih⟩ := hdims i hf
      cases hfa
      exact ⟨hiw, hih⟩
  · rw [hsnd, update_some_eq]
    exact getKey_updFinal_width cfg w h fps
  · rw [hsnd, update_some_eq]
    exact getKey_updFinal_height cfg w h fps

/-- C5 amended witness: a single 16×12 frame converted against a concrete
descriptor — dimensions land in metadata and match the single artifact. -/
theorem c5_amended_uniform_dims_witness :
    ((∀ img, FrameSrc.ok img ∈ [FrameSrc.ok imgWide] → img.width = 16 ∧ img.height = 12)
      ∧ 0 < countOk [FrameSrc.ok imgWide])
    ∧ ((∀ a ∈ (process_library_step [] (some descHappy) [FrameSrc.ok imgWide] none).1,
          a.width = 16 ∧ a.height = 12)
      ∧ (process_library_step [] (some descHappy) [FrameSrc.ok imgWide] none).1
          = (process_and_convert_frames [FrameSrc.ok imgWide]).artifacts
      ∧ (process_library_step [] (some descHappy) [FrameSrc.ok imgWide] none).2.bind
          (fun c => getKey c "Dimensions" "Width") = some (toString 16)
      ∧ (process_library_step [] (some descHappy) [FrameSrc.ok imgWide] none).2.bind
          (fun c => getKey c "Dimensions" "Height") = some (toString 12)) := by
  have hd : ∀ img, FrameSrc.ok img ∈ [FrameSrc.ok imgWide] → img.width = 16 ∧ img.height = 12 := by
    intro img hmem
    simp only [List.mem_singleton] at hmem
    injection hmem with hi
    subst hi
    exact ⟨rfl, rfl⟩
  exact ⟨⟨hd, by decide⟩,
    c5_amended_uniform_dims [] descHappy [FrameSrc.ok imgWide] none 16 12 hd (by decide)⟩

/- ### Frame canonicalization -/

/-- C6: canonicalization pairs canonical indices exactly 0..n-1, gapless and
in order, with the original frame indices rearranged into ascending numeric
order (a permutation of the input, so nothing is lost or invented); e.g.
frames 5, 3, 4 become canonical 0,1,2 for originals 3,4,5, and 10 sorts
after 9 (numeric, not lexicographic). -/
theorem c6_frame_canonicalization (frame_numbers : List Nat) :
    (canonicalize_frames frame_numbers).map Prod.fst = List.range frame_numbers.length
    ∧ List.Perm ((canonicalize_frames frame_numbers).map Prod.snd) frame_numbers
    ∧ List.Sorted (· ≤ ·) ((canonicalize_frames frame_numbers).map Prod.snd)
    ∧ canonicalize_frames [5, 3, 4] = [(0, 3), (1, 4), (2, 5)]
    ∧ canonicalize_frames [9, 10] = [(0, 9), (1, 10)] := by
  refine ⟨?_, ?_, ?_, by decide, by decide⟩
  · rw [canonicalize_frames]
    simp [sort_frames, (List.perm_insertionSort (· ≤ ·) frame_numbers).length_eq]
  · rw [canonicalize_frames]
    simp only [List.enum_map_snd]
    exact List.perm_insertionSort (· ≤ ·) frame_numbers
  · rw [canonicalize_frames]
    simp only [List.enum_map_snd]
    exact List.sorted_insertionSort (· ≤ ·) frame_numbers

/- ### Descriptor generation -/

/-- C7: descriptor generation is idempotent — with an existing file (any
content, possibly hand-edited) the call returns the state unchanged (no
write), and when absent it creates the default whose fields are
Type=IdleBlink, AnimationFPS=20, IdleTimeMinMS=1000, IdleTimeMaxMS=3000,
Width=0, Height=0. -/
theorem c7_generate_description_idempotent (expression_name : String)
    (s : Option (List String)) :
    generate_expression_description
        (generate_expression_description s expression_name) expression_name
      = generate_expression_description s expression_name
    ∧ (∀ content, generate_expression_description (some content) expression_name = some content)
    ∧ generate_expression_description none expression_name
      = some (default_description_lines expression_name)
    ∧ "Type = IdleBlink" ∈ default_description_lines expression_name
    ∧ "AnimationFPS = 20" ∈ default_description_lines expression_name
    ∧ "IdleTimeMinMS = 1000" ∈ default_description_lines expression_name
    ∧ "IdleTimeMaxMS = 3000" ∈ default_description_lines expression_name
    ∧ "Width = 0" ∈ default_description_lines expression_name
    ∧ "Height = 0" ∈ default_description_lines expression_name := by
  refine ⟨?_, fun content => rfl, rfl, ?_, ?_, ?_, ?_, ?_, ?_⟩
  · cases s <;> rfl
  all_goals simp [default_description_lines]

end GraphicsGen
